import Mathlib

/-!
Shallow embedding of the ionic-traces service (src/ionic/__main__.py).

Time is modelled as `Int` seconds.  The relational store is modelled as a
list of `User` rows (`Registry`); SQLAlchemy's `fetchone` on a SELECT is
`List.find?`, a primary-key `session.get` is `find?` on the id column, an
UPDATE is a `List.map` touching the matching row, a DELETE is `List.filter`.
Discord message and reaction events are records carrying exactly the fields
the handlers read.  The external natural-language resolver (`timefhuman`)
and the timezone localisation chain (`Arrow.fromdatetime`/`to("UTC")`/epoch)
are parameters of `conversion_handler` since they are consumed capabilities,
not code of this repository.  Python's dynamic typing in the resolver path
is captured by `PyVal`; a raised-and-unhandled exception is `Except.error`.
-/

/-- Row of the `mbd_user` table (class `User`, src lines 81-95).
`update_id` is the nullable pending link token; `update_dt` is the
timestamp column.  The column default for `update_dt` is a constant
evaluated once when the class body runs, so row creation stamps that
constant, and nothing in the code ever updates the column afterwards. -/
structure User where
  id : Nat
  tz : String
  update_id : Option Int
  update_dt : Int
deriving DecidableEq

/-- The database: the rows of `mbd_user`, in select order. -/
abbrev Registry := List User

/-- Fields of a Discord message that the handlers read. -/
structure Message where
  content : String
  author_id : Nat
  channel_id : Nat
deriving DecidableEq

/-- REGISTRATION_TIMEOUT (src line 44): 30 minutes, in seconds. -/
def REGISTRATION_TIMEOUT : Int := 30 * 60

/-- MESSAGE_DELETE_REACTION (src line 43). -/
def MESSAGE_DELETE_REACTION : String := "❌"

/-- Primary-key lookup `session.get(User, uid)` / `select(User).where(User.id == uid)`. -/
def db_get (db : Registry) (uid : Nat) : Option User :=
  db.find? (fun u => u.id == uid)

/-- Web endpoint `receive_timezone` (src lines 104-125).  Looks the row up
by pending token, checks the strict age bound `now - update_dt >
REGISTRATION_TIMEOUT`, and on success writes the submitted timezone into
the matched row.  The returned `Option String` is the HTTP body: `none`
models the bare `return` (no body) taken when no row holds the token. -/
def receive_timezone (db : Registry) (link_id : Int) (tzArg : String) (now : Int) :
    Option String × Registry :=
  match db.find? (fun u => u.update_id == some link_id) with
  | none => (none, db)
  | some u =>
    if now - u.update_dt > REGISTRATION_TIMEOUT then
      (some "Link timed out", db)
    else
      (some "Received",
       db.map (fun v => if v.id == u.id then { v with tz := tzArg } else v))

/-- The registry write performed by `registration_handler` (src lines
304-311): fetch the author's row by primary key; create it with an empty
timezone (and the column-default timestamp `defaultDt`) when absent; set
`update_id` to the fresh token.  Note that `update_dt` of an existing row
is left untouched. -/
def registration_write (db : Registry) (uid : Nat) (link_id : Int) (defaultDt : Int) :
    Registry :=
  match db_get db uid with
  | some _ => db.map (fun v => if v.id == uid then { v with update_id := some link_id } else v)
  | none => db ++ [{ id := uid, tz := "", update_id := some link_id, update_dt := defaultDt }]

/-- Direct-message text sent by `registration_handler` (src lines 313-321). -/
def registration_dm (app_url : String) (link_id : Int) : String :=
  "Visit this link to register your timezone: \n\n<" ++ app_url ++ toString link_id
    ++ ">\n\n"
    ++ "This will collect and store your discord id and your timezone.\n"
    ++ "Both of these are only used to understand what time you mean when you use the bot. "
    ++ "This data is stored securely and not processed in any way and can be deleted with "
    ++ "`?time-deregister`"

/-- Handler `registration_handler` (src lines 293-322).  `link_id` stands
for the value returned by `random.randrange(1000000, 9999999, 1)` and
`defaultDt` for the constant insert default of the `update_dt` column.
Returns the new registry, the DM sent to the author, and the public reply. -/
def registration_handler (db : Registry) (reg_channel : Option Nat) (app_url : String)
    (link_id : Int) (defaultDt : Int) (m : Message) :
    Registry × Option String × Option String :=
  if m.content == "?time" && (some m.channel_id == reg_channel || reg_channel == none) then
    (registration_write db m.author_id link_id defaultDt,
     some (registration_dm app_url link_id),
     some "Check your direct messages for a registration link")
  else
    (db, none, none)

/-- Lower bound of `random.randrange(1000000, 9999999, 1)` (src line 302). -/
def randrange_lo : Int := 1000000

/-- Exclusive upper bound of `random.randrange(1000000, 9999999, 1)`. -/
def randrange_hi : Int := 9999999

/-- Handler `deregister_handler` (src lines 324-336).  The guard demands
`message.channel.id == self.reg_channel_id`; in Python an `int` never
equals `None`, modelled by comparing `some m.channel_id` with the option. -/
def deregister_handler (db : Registry) (reg_channel : Option Nat) (m : Message) :
    Registry × Option String :=
  if m.content == "?time-deregister" && some m.channel_id == reg_channel then
    (db.filter (fun u => !(u.id == m.author_id)), some "You have successfully unregistered")
  else
    (db, none)

/-- Fields of a reaction-add event that `on_reaction_add` reads:
the guild of the reacted-to message, its author, the reacting user, the
emoji, and the author of the message the bot's reply responded to
(resolved through `message.reference.message_id`). -/
structure ReactionEvent where
  guild_id : Nat
  message_author_id : Nat
  reacting_user_id : Nat
  emoji : String
  replied_to_author_id : Nat
deriving DecidableEq

/-- Character class `[0-9]` of both element regexes. -/
def isDigitChar (c : Char) : Bool :=
  c.isDigit

/-- Character class `[a-zA-Z0-9_.]` of the emoji regex. -/
def emojiClassChar (c : Char) : Bool :=
  c.isAlpha || c.isDigit || c == '_' || c == '.'

/-- Checks for `[0-9]{18}>` at the head of `r`: exactly eighteen digits
followed by a closing angle bracket. -/
def digitsThenGt (r : List Char) : Bool :=
  decide ((r.take 18).length = 18) && (r.take 18).all isDigitChar &&
    (match r.drop 18 with
     | '>' :: _ => true
     | _ => false)

/-- Length consumed after the opening `<` by the mention alternative
`<(@!|#)[0-9]{18}>` of `rgx_d_elems` (src line 46), or `none` when that
alternative does not match here. -/
def mentionLen (rest : List Char) : Option Nat :=
  match rest with
  | '@' :: '!' :: r => if digitsThenGt r then some 21 else none
  | '#' :: r => if digitsThenGt r then some 20 else none
  | _ => none

/-- Body of the emoji alternative after its first `:`: a greedy run of
`[a-zA-Z0-9_.]{2,32}` that must stop exactly at a `:`, then eighteen
digits and `>`.  Since `:` and `>` are outside the class and digits are
inside it, backtracking over the bounded repetition can never succeed with
a shorter run, so the maximal-run reading is exactly the regex semantics. -/
def emojiBody (r : List Char) : Option Nat :=
  let run := r.takeWhile emojiClassChar
  if 2 ≤ run.length && run.length ≤ 32 then
    match r.drop run.length with
    | ':' :: r2 => if digitsThenGt r2 then some (run.length + 20) else none
    | _ => none
  else none

/-- Length consumed after the opening `<` by the emoji alternative
`<a{0,1}:[a-zA-Z0-9_.]{2,32}:[0-9]{18}>` of `rgx_d_elems`, or `none`.
The optional `a` is greedy; when it is taken the next character must be
`:`, and when it is not the first character must already be `:`, so the
match is deterministic. -/
def emojiLen (rest : List Char) : Option Nat :=
  match rest with
  | 'a' :: ':' :: r => (emojiBody r).map (fun n => n + 2)
  | ':' :: r => (emojiBody r).map (fun n => n + 1)
  | _ => none

/-- Walker for `rgx_d_elems.sub("", content)`: the second argument counts
characters still to delete from an element match already recognised.  At
a `<` with the counter at zero the two alternatives are tried (they need
distinct following characters, `@`/`#` versus `a`/`:`, so trying the
mention alternative first agrees with the regex's alternation order); on
a match the matched characters are deleted by setting the counter. -/
def subAux : List Char → Nat → List Char
  | [], _ => []
  | _ :: rest, Nat.succ k => subAux rest k
  | '<' :: rest, 0 =>
    match mentionLen rest with
    | some n => subAux rest n
    | none =>
      match emojiLen rest with
      | some n => subAux rest n
      | none => '<' :: subAux rest 0
  | c :: rest, 0 => c :: subAux rest 0

/-- `rgx_d_elems.sub("", content)` (src line 231): delete every
non-overlapping leftmost match of the mention/emoji regex, scanning left
to right. -/
def rgx_d_elems_sub (l : List Char) : List Char :=
  subAux l 0

/-- Scanner state for `rgx_dt_markers.findall`: `none` outside a
potential match, `some acc` after an unclosed `<` with the inner
characters seen so far accumulated in reverse.  On a close the pattern
`<[^>][^>]+>` matched exactly when at least two inner characters were
read; since a failed attempt encloses no earlier `<` followed by two
non-`>` characters and a `>`, restarting after the close finds the same
matches as the regex engine's restart one character past the attempt. -/
def findallAux : List Char → Option (List Char) → List (List Char)
  | [], _ => []
  | c :: rest, none =>
    if c == '<' then findallAux rest (some []) else findallAux rest none
  | c :: rest, some acc =>
    if c == '>' then
      if 2 ≤ acc.length then ('<' :: (acc.reverse ++ ['>'])) :: findallAux rest none
      else findallAux rest none
    else findallAux rest (some (c :: acc))

/-- `rgx_dt_markers.findall(content)` (src lines 48 and 234): all
non-overlapping matches of `<[^>][^>]+>`, in order, brackets included. -/
def rgx_dt_markers_findall (l : List Char) : List (List Char) :=
  findallAux l none

/-- The extraction pipeline of `conversion_handler` (src lines 229-238):
strip discord elements, find marker substrings, drop the surrounding
brackets (`time[1:-1]`), and discard candidates starting with `http`. -/
def extract_candidates (content : String) : List String :=
  let cleaned := rgx_d_elems_sub content.toList
  let found := rgx_dt_markers_findall cleaned
  let stripped := found.map (fun t => (t.drop 1).dropLast)
  let kept := stripped.filter (fun t => !(("http".toList).isPrefixOf t))
  kept.map (fun t => String.mk t)

/-- A Python value flowing through the dynamically-typed `time_list`:
a naive datetime (as wall-clock seconds), a list result from the
resolver, or a raw candidate string left over when the batch assignment
was aborted by an exception. -/
inductive PyVal where
  | dt : Int → PyVal
  | pylist : List Int → PyVal
  | pystr : String → PyVal
deriving DecidableEq

/-- Python's `time != []` filter (src line 246): only a value that is the
empty list compares equal to `[]`. -/
def pyNeqEmptyList : PyVal → Bool
  | .pylist [] => false
  | _ => true

/-- A Python list comprehension `[f x for x in xs]` over a fallible `f`:
elements are evaluated left to right and the first raised error aborts
the whole comprehension, discarding every element already produced. -/
def mapExcept (f : String → Except Unit PyVal) : List String → Except Unit (List PyVal)
  | [] => .ok []
  | x :: xs =>
    match f x with
    | .error e => .error e
    | .ok v =>
      match mapExcept f xs with
      | .error e => .error e
      | .ok vs => .ok (v :: vs)

/-- The `try`/`except ValueError` block around the resolver batch
(src lines 240-244): when the comprehension raises, the assignment to
`time_list` never happens, so the variable keeps the raw candidate
strings. -/
def parseBatch (resolve : String → Except Unit PyVal) (xs : List String) : List PyVal :=
  match mapExcept resolve xs with
  | .ok parsed => parsed
  | .error _ => xs.map PyVal.pystr

/-- Registration-guidance reply for an unregistered author
(src lines 261-273), depending only on whether a registration channel is
configured. -/
def guidance (reg_channel : Option Nat) : String :=
  match reg_channel with
  | some c =>
    "You haven't registered with me yet or registration has failed\n"
      ++ "Register by typing `?time` in the <#" ++ toString c ++ "> channel"
  | none =>
    "You haven't registered with me yet or registration has failed\n"
      ++ "Register by typing `?time.`"

/-- The localisation chain of src lines 280-286 applied to one list
element: `Arrow.fromdatetime(time, tz)` raises unless the element is a
single naive datetime; on a datetime the composite `to("UTC")` /
`int((t - Arrow(1970,1,1)).total_seconds())` is the capability `loc`. -/
def arrowChain (loc : String → Int → Int) (tz : String) :
    List PyVal → Except Unit (List Int)
  | [] => .ok []
  | .dt t :: xs =>
    match arrowChain loc tz xs with
    | .ok vs => .ok (loc tz t :: vs)
    | .error e => .error e
  | .pylist _ :: _ => .error ()
  | .pystr _ :: _ => .error ()

/-- Python's `sep.join(strs)`: the pieces concatenated with `sep` between
consecutive pieces. -/
def pyJoin (sep : String) : List String → String
  | [] => ""
  | [x] => x
  | x :: y :: xs => x ++ sep ++ pyJoin sep (y :: xs)

/-- Reply text built by src lines 288-290: the unix times joined with
`":F>, <t:"`, wrapped in `"<t:"` and `":F>"` and the fixed preamble and
suffix. -/
def buildReply (unix_times : List Int) : String :=
  let joined := pyJoin ":F>, <t:" (unix_times.map (fun t => toString t))
  "That's " ++ ("<t:" ++ joined ++ ":F>") ++ " auto-converted to local time."

/-- Outcome of `conversion_handler` on the Discord side. -/
inductive ConvOut where
  | noReply
  | reply : String → ConvOut
deriving DecidableEq

/-- Handler `conversion_handler` (src lines 224-291).  `resolve` is the
external `timefhuman` capability, `loc` the timezone localisation
capability.  The handler only ever reads the registry, so the registry is
returned untouched on every non-raising path; `Except.error` marks an
exception escaping the handler. -/
def conversion_handler (resolve : String → Except Unit PyVal)
    (loc : String → Int → Int) (db : Registry) (reg_channel : Option Nat)
    (m : Message) : Except Unit (Registry × ConvOut) :=
  let time_list := extract_candidates m.content
  let items := (parseBatch resolve time_list).filter pyNeqEmptyList
  if items.length = 0 then .ok (db, .noReply)
  else
    match db_get db m.author_id with
    | none => .ok (db, .reply (guidance reg_channel))
    | some u =>
      if u.tz == "" then .ok (db, .reply (guidance reg_channel))
      else
        match arrowChain loc u.tz items with
        | .error e => .error e
        | .ok unix_times => .ok (db, .reply (buildReply unix_times))

/-- A concrete resolver instance used to exercise the handlers on closed
inputs: it understands `t1c` and `t2c` and raises on `bd1`. -/
def resolveW : String → Except Unit PyVal :=
  fun s =>
    if s == "bd1" then .error ()
    else if s == "t2c" then .ok (.dt 200)
    else .ok (.dt 100)

/-- A concrete localisation instance used on closed inputs: a fixed
one-hour-east offset. -/
def locW : String → Int → Int :=
  fun _ t => t - 3600

/-- Formalisation of the words of the extraction claim, for comparison
with `extract_candidates`: every substring delimited by angle brackets
and containing no nested `<` or `>` is a candidate with the delimiters
stripped.  An inner `>` closes the candidate; an inner `<` abandons the
attempt and starts a fresh one there (the abandoned characters contain no
bracket, so no candidate is skipped by not rescanning them). -/
def claimScanAux : List Char → Option (List Char) → List (List Char)
  | [], _ => []
  | c :: rest, none =>
    if c == '<' then claimScanAux rest (some []) else claimScanAux rest none
  | c :: rest, some acc =>
    if c == '>' then acc.reverse :: claimScanAux rest none
    else if c == '<' then claimScanAux rest (some [])
    else claimScanAux rest (some (c :: acc))

/-- The claim's extraction pipeline, from the claim's words rather than
the source: markup removal, bracket-delimited candidates with no nested
brackets, delimiters stripped, hyperlinks discarded, order preserved. -/
def claim_extract_candidates (content : String) : List String :=
  let cleaned := rgx_d_elems_sub content.toList
  let found := claimScanAux cleaned none
  let kept := found.filter (fun t => !(("http".toList).isPrefixOf t))
  kept.map (fun t => String.mk t)

/-- Handler `on_reaction_add` (src lines 186-222) as its decision:
`true` exactly when the chain of early returns is passed and
`message_reacted_to.delete()` runs.  The source checks the reacted-to
message's author against the bot twice (once by id, once by object
equality); both are the id comparison here. -/
def on_reaction_add (server_id bot_id : Nat) (e : ReactionEvent) : Bool :=
  if e.guild_id != server_id then false
  else if e.message_author_id != bot_id then false
  else if e.reacting_user_id == bot_id then false
  else if e.emoji != MESSAGE_DELETE_REACTION then false
  else if e.message_author_id != bot_id then false
  else if e.replied_to_author_id != e.reacting_user_id then false
  else true

/-- A block the marker pattern `<[^>][^>]+>` accepts: an angle-bracket
delimited substring whose inner text has at least two characters, none of
them `>`.  This is the candidate shape named by the extraction claim. -/
def validBlock (t : List Char) : Prop :=
  ∃ inner, t = '<' :: (inner ++ ['>']) ∧ 2 ≤ inner.length ∧ ∀ ch ∈ inner, ch ≠ '>'

/-- Interleaves gap segments with match segments:
`glue [g0, g1, ..., gk] [m0, ..., mk-1] = g0 ++ m0 ++ g1 ++ ... ++ mk-1 ++ gk`.
Used to state that the matches of a scan occur disjointly, in left-to-right
order, inside the scanned text. -/
def glue : List (List Char) → List (List Char) → List Char
  | [], _ => []
  | g :: _, [] => g
  | g :: gs, m :: ms => g ++ m ++ glue gs ms

/-- The characters already consumed by an in-progress attempt of the
marker scanner: nothing outside an attempt, the opening bracket plus the
accumulated inner characters inside one. -/
def stPrefix : Option (List Char) → List Char
  | none => []
  | some acc => '<' :: acc.reverse

/-! Helper lemmas shared by the claim theorems. -/

/-- Rewriting a row's timezone does not change which row a token lookup
finds, beyond applying the same rewrite to the found row. -/
theorem find?_token_map_update_tz (db : Registry) (i : Nat) (tzArg : String) (link : Int) :
    (db.map (fun v => if v.id == i then { v with tz := tzArg } else v)).find?
        (fun u => u.update_id == some link) =
      Option.map (fun v => if v.id == i then { v with tz := tzArg } else v)
        (db.find? (fun u => u.update_id == some link)) := by
  rw [List.find?_map]
  have hcomp : ((fun u : User => u.update_id == some link) ∘
      (fun v => if v.id == i then { v with tz := tzArg } else v)) =
      fun u : User => u.update_id == some link := by
    funext v
    by_cases h : v.id == i <;> simp [Function.comp, h]
  rw [hcomp]

/-- The timezone rewrite keeps `update_id` and `update_dt` of every row. -/
theorem update_tz_fields (v : User) (i : Nat) (tzArg : String) :
    (if v.id == i then { v with tz := tzArg } else v).update_id = v.update_id ∧
      (if v.id == i then { v with tz := tzArg } else v).update_dt = v.update_dt := by
  by_cases h : v.id == i <;> simp [h]

/-- `arrowChain` maps a list of plain datetimes through the localisation
capability, in order. -/
theorem arrowChain_map_dt (loc : String → Int → Int) (tz : String) (ts : List Int) :
    arrowChain loc tz (ts.map PyVal.dt) = .ok (ts.map (loc tz)) := by
  induction ts with
  | nil => rfl
  | cons t ts ih => simp [arrowChain, ih]

/-- Datetime values all pass the `!= []` filter. -/
theorem filter_pyNeq_map_dt (ts : List Int) :
    (ts.map PyVal.dt).filter pyNeqEmptyList = ts.map PyVal.dt := by
  rw [List.filter_eq_self]
  intro a ha
  rcases List.mem_map.mp ha with ⟨t, _, rfl⟩
  rfl

/-- Raw strings all pass the `!= []` filter. -/
theorem filter_pyNeq_map_pystr (cs : List String) :
    (cs.map PyVal.pystr).filter pyNeqEmptyList = cs.map PyVal.pystr := by
  rw [List.filter_eq_self]
  intro a ha
  rcases List.mem_map.mp ha with ⟨t, _, rfl⟩
  rfl

/-- The source's join-then-wrap construction equals joining the finished
timestamp tokens with the plain separator `", "`. -/
theorem pyJoin_tokens (es : List Int) (h : es ≠ []) :
    "<t:" ++ pyJoin ":F>, <t:" (es.map (fun t => toString t)) ++ ":F>" =
      pyJoin ", " (es.map (fun e => "<t:" ++ toString e ++ ":F>")) := by
  induction es with
  | nil => exact absurd rfl h
  | cons e tl ih =>
    match tl with
    | [] => simp [pyJoin]
    | e' :: tl' =>
      have htl : e' :: tl' ≠ [] := by simp
      have ih' := ih htl
      simp only [List.map_cons, pyJoin] at ih' ⊢
      rw [← ih']
      have hsplit : (":F>, <t:" : String) = ":F>" ++ ", " ++ "<t:" := rfl
      rw [hsplit]
      simp only [String.append_assoc]

/-- Every match produced by the marker scanner is a bracketed block whose
inner text has at least two characters, none of them `>`. -/
theorem findallAux_shape (l : List Char) :
    ∀ (st : Option (List Char)),
      (∀ acc, st = some acc → ∀ a ∈ acc, a ≠ '>') →
      ∀ mres ∈ findallAux l st,
        ∃ inner, mres = '<' :: (inner ++ ['>']) ∧ 2 ≤ inner.length ∧
          ∀ ch ∈ inner, ch ≠ '>' := by
  induction l with
  | nil =>
    intro st hst mres hm
    cases st <;> simp [findallAux] at hm
  | cons c rest ih =>
    intro st hst mres hm
    cases st with
    | none =>
      simp only [findallAux] at hm
      by_cases hc : c == '<'
      · rw [if_pos hc] at hm
        exact ih (some []) (by intro acc hacc a ha; cases hacc; simp at ha) mres hm
      · rw [if_neg hc] at hm
        exact ih none (by intro acc hacc; cases hacc) mres hm
    | some acc =>
      simp only [findallAux] at hm
      by_cases hc : c == '>'
      · rw [if_pos hc] at hm
        by_cases hlen : 2 ≤ acc.length
        · rw [if_pos hlen] at hm
          rcases List.mem_cons.mp hm with hhead | htail
          · refine ⟨acc.reverse, hhead, by simpa using hlen, ?_⟩
            intro ch hch
            exact hst acc rfl ch (List.mem_reverse.mp hch)
          · exact ih none (by intro a ha; cases ha) mres htail
        · rw [if_neg hlen] at hm
          exact ih none (by intro a ha; cases ha) mres hm
      · rw [if_neg hc] at hm
        refine ih (some (c :: acc)) ?_ mres hm
        intro acc' hacc' a ha
        cases hacc'
        rcases List.mem_cons.mp ha with rfl | ha'
        · exact fun habs => hc (by simp [habs])
        · exact hst acc rfl a ha'

/-- `glue` over a first gap extended by one character. -/
theorem glue_cons_head (c : Char) (g : List Char) (gs ms : List (List Char)) :
    glue ((c :: g) :: gs) ms = c :: glue (g :: gs) ms := by
  cases ms <;> simp [glue]

/-- `glue` over a first gap extended by a whole segment. -/
theorem glue_append_head (p g : List Char) (gs ms : List (List Char)) :
    glue ((p ++ g) :: gs) ms = p ++ glue (g :: gs) ms := by
  cases ms <;> simp [glue]

/-- The empty list is not a valid block. -/
theorem validBlock_not_nil : ¬ validBlock [] := by
  rintro ⟨inner, heq, -, -⟩
  simp at heq

/-- A segment without any closing bracket contains no valid block. -/
theorem noBlock_no_gt (g : List Char) (h : ∀ ch ∈ g, ch ≠ '>') :
    ∀ t, t.IsInfix g → ¬ validBlock t := by
  rintro t ht ⟨inner, rfl, hlen, hchars⟩
  have hmem : '>' ∈ '<' :: (inner ++ ['>']) := by simp
  exact h '>' (ht.subset hmem) rfl

/-- Prepending a character other than `<` to a block-free segment keeps
it block-free: a new infix would have to start at that character. -/
theorem noBlock_cons (c : Char) (g : List Char) (hc : c ≠ '<')
    (hg : ∀ t, t.IsInfix g → ¬ validBlock t) :
    ∀ t, t.IsInfix (c :: g) → ¬ validBlock t := by
  rintro t ht ⟨inner, rfl, hlen, hchars⟩
  rcases List.infix_cons_iff.mp ht with hpre | hinf
  · rcases List.cons_prefix_cons.mp hpre with ⟨h1, -⟩
    exact hc h1.symm
  · exact hg _ hinf ⟨inner, rfl, hlen, hchars⟩

/-- Prepending the failed attempt `<>` to a block-free segment keeps it
block-free: a block starting at its `<` would need a non-`>` inner
character immediately after it. -/
theorem noBlock_dead0 (g : List Char)
    (hg : ∀ t, t.IsInfix g → ¬ validBlock t) :
    ∀ t, t.IsInfix ('<' :: '>' :: g) → ¬ validBlock t := by
  rintro t ht ⟨inner, rfl, hlen, hchars⟩
  obtain ⟨i0, ir, rfl⟩ : ∃ i0 ir, inner = i0 :: ir := by
    cases inner with
    | nil => simp at hlen
    | cons a l => exact ⟨a, l, rfl⟩
  rcases List.infix_cons_iff.mp ht with hpre | hinf
  · rcases List.cons_prefix_cons.mp hpre with ⟨-, h2⟩
    rcases List.cons_prefix_cons.mp h2 with ⟨h3, -⟩
    exact hchars i0 (by simp) h3
  · rcases List.infix_cons_iff.mp hinf with hpre2 | hinf2
    · rcases List.cons_prefix_cons.mp hpre2 with ⟨h1, -⟩
      exact absurd h1 (by decide)
    · exact hg _ hinf2 ⟨i0 :: ir, rfl, hlen, hchars⟩

/-- Prepending a failed attempt `<x>` to a block-free segment keeps it
block-free: a block starting at its `<` or at `x` runs into the `>`
within its first two inner characters. -/
theorem noBlock_dead1 (x : Char) (g : List Char)
    (hg : ∀ t, t.IsInfix g → ¬ validBlock t) :
    ∀ t, t.IsInfix ('<' :: x :: '>' :: g) → ¬ validBlock t := by
  rintro t ht ⟨inner, rfl, hlen, hchars⟩
  obtain ⟨i0, i1, ir, rfl⟩ : ∃ i0 i1 ir, inner = i0 :: i1 :: ir := by
    match inner, hlen with
    | a :: b :: l, _ => exact ⟨a, b, l, rfl⟩
  rcases List.infix_cons_iff.mp ht with hpre | hinf
  · rcases List.cons_prefix_cons.mp hpre with ⟨-, h2⟩
    rcases List.cons_prefix_cons.mp h2 with ⟨-, h3⟩
    rcases List.cons_prefix_cons.mp h3 with ⟨h4, -⟩
    exact hchars i1 (by simp) h4
  · rcases List.infix_cons_iff.mp hinf with hpre2 | hinf2
    · rcases List.cons_prefix_cons.mp hpre2 with ⟨h1, h2⟩
      rcases List.cons_prefix_cons.mp h2 with ⟨h3, -⟩
      exact hchars i0 (by simp) h3
    · rcases List.infix_cons_iff.mp hinf2 with hpre3 | hinf3
      · rcases List.cons_prefix_cons.mp hpre3 with ⟨h1, -⟩
        exact absurd h1 (by decide)
      · exact hg _ hinf3 ⟨i0 :: i1 :: ir, rfl, hlen, hchars⟩

/-- Decomposition of the marker scan: the scanned text splits into
alternating gap and match segments, the matches appearing disjointly in
left-to-right order, and no gap contains a valid block as an infix.  So
every valid-block occurrence in the text overlaps one of the returned
matches: it cannot lie inside a single gap, and crossing a gap boundary
means intersecting a neighbouring (nonempty) match. -/
theorem findallAux_gaps (l : List Char) :
    ∀ (st : Option (List Char)),
      (∀ acc, st = some acc → ∀ a ∈ acc, a ≠ '>') →
      ∃ gaps : List (List Char),
        gaps.length = (findallAux l st).length + 1 ∧
        glue gaps (findallAux l st) = stPrefix st ++ l ∧
        ∀ g ∈ gaps, ∀ t, t.IsInfix g → ¬ validBlock t := by
  induction l with
  | nil =>
    intro st hst
    refine ⟨[stPrefix st], by cases st <;> simp [findallAux], ?_, ?_⟩
    · cases st <;> simp [findallAux, glue]
    · intro g hgmem t ht
      have hg : g = stPrefix st := by simpa using hgmem
      subst hg
      cases st with
      | none =>
        intro hv
        have ht2 : t = [] := by simpa [stPrefix, List.infix_nil] using ht
        subst ht2
        exact validBlock_not_nil hv
      | some acc =>
        refine noBlock_no_gt _ ?_ t ht
        intro ch hch
        rcases List.mem_cons.mp hch with rfl | hch'
        · decide
        · exact hst acc rfl ch (List.mem_reverse.mp hch')
  | cons c rest ih =>
    intro st hst
    cases st with
    | none =>
      by_cases hc : c == '<'
      · have hceq : c = '<' := by simpa using hc
        subst hceq
        rcases ih (some []) (by intro acc hacc a ha; cases hacc; simp at ha) with
          ⟨gaps, hl, hg, hnb⟩
        refine ⟨gaps, ?_, ?_, hnb⟩
        · simpa [findallAux] using hl
        · simpa [findallAux, stPrefix] using hg
      · have hcne : c ≠ '<' := by simpa using hc
        rcases ih none (by intro acc hacc; cases hacc) with ⟨gaps, hl, hg, hnb⟩
        match gaps, hl with
        | g0 :: gs, hl =>
          refine ⟨(c :: g0) :: gs, ?_, ?_, ?_⟩
          · simpa [findallAux, hc] using hl
          · rw [glue_cons_head]
            simp only [findallAux, hc, Bool.false_eq_true, if_false]
            simp only [stPrefix] at hg ⊢
            rw [hg]
            simp
          · intro g hgmem t ht
            rcases List.mem_cons.mp hgmem with rfl | hmem'
            · exact noBlock_cons c g0 hcne (fun t2 ht2 => hnb g0 (by simp) t2 ht2) t ht
            · exact hnb g (List.mem_cons_of_mem _ hmem') t ht
    | some acc =>
      by_cases hc : c == '>'
      · have hceq : c = '>' := by simpa using hc
        subst hceq
        by_cases hlen2 : 2 ≤ acc.length
        · rcases ih none (by intro a ha; cases ha) with ⟨gaps, hl, hg, hnb⟩
          have hstep : findallAux ('>' :: rest) (some acc) =
              ('<' :: (acc.reverse ++ ['>'])) :: findallAux rest none := by
            simp [findallAux, hlen2]
          refine ⟨[] :: gaps, ?_, ?_, ?_⟩
          · rw [hstep]
            simpa using hl
          · rw [hstep]
            simp only [glue]
            simp only [stPrefix] at hg ⊢
            rw [hg]
            simp
          · intro g hgmem t ht
            rcases List.mem_cons.mp hgmem with rfl | hmem'
            · intro hv
              rw [List.infix_nil] at ht
              subst ht
              exact validBlock_not_nil hv
            · exact hnb g hmem' t ht
        · rcases ih none (by intro a ha; cases ha) with ⟨gaps, hl, hg, hnb⟩
          have hstep : findallAux ('>' :: rest) (some acc) = findallAux rest none := by
            simp [findallAux, hlen2]
          match gaps, hl with
          | g0 :: gs, hl =>
            refine ⟨(('<' :: (acc.reverse ++ ['>'])) ++ g0) :: gs, ?_, ?_, ?_⟩
            · rw [hstep]
              simpa using hl
            · rw [hstep, glue_append_head]
              simp only [stPrefix] at hg ⊢
              rw [hg]
              simp
            · intro g hgmem t ht
              rcases List.mem_cons.mp hgmem with rfl | hmem'
              · have hnb0 : ∀ t2, t2.IsInfix g0 → ¬ validBlock t2 :=
                  fun t2 ht2 => hnb g0 (by simp) t2 ht2
                have hlen1 : acc.length ≤ 1 := by omega
                cases acc with
                | nil =>
                  have : ('<' :: (([] : List Char).reverse ++ ['>'])) ++ g0 =
                      '<' :: '>' :: g0 := by simp
                  rw [this] at ht
                  exact noBlock_dead0 g0 hnb0 t ht
                | cons x acc' =>
                  have hacc' : acc' = [] := by
                    cases acc' with
                    | nil => rfl
                    | cons y l => simp at hlen1
                  subst hacc'
                  have : ('<' :: (([x] : List Char).reverse ++ ['>'])) ++ g0 =
                      '<' :: x :: '>' :: g0 := by simp
                  rw [this] at ht
                  exact noBlock_dead1 x g0 hnb0 t ht
              · exact hnb g (List.mem_cons_of_mem _ hmem') t ht
      · have hcne : c ≠ '>' := by simpa using hc
        have hinv : ∀ acc2, (some (c :: acc) : Option (List Char)) = some acc2 →
            ∀ a ∈ acc2, a ≠ '>' := by
          intro acc2 hacc2 a ha
          cases hacc2
          rcases List.mem_cons.mp ha with rfl | ha'
          · exact hcne
          · exact hst acc rfl a ha'
        rcases ih (some (c :: acc)) hinv with ⟨gaps, hl, hg, hnb⟩
        refine ⟨gaps, ?_, ?_, hnb⟩
        · simpa [findallAux, hc] using hl
        · simp only [findallAux, hc, Bool.false_eq_true, if_false]
          simp only [stPrefix, List.reverse_cons] at hg ⊢
          rw [hg]
          try simp

/-! Claim theorems. -/

/-- Claim C9: a reaction-add event deletes the bot's reply exactly when
the event is in the served guild, on a bot-authored message, the reactor
is not the bot, the emoji is the fixed delete reaction, and the reactor
authored the original message the reply responded to; in particular a
reaction by anyone else never deletes the reply. -/
theorem c9_delete_authorization (server_id bot_id : Nat) (e : ReactionEvent) :
    on_reaction_add server_id bot_id e = true ↔
      (e.guild_id = server_id ∧ e.message_author_id = bot_id ∧
       e.reacting_user_id ≠ bot_id ∧ e.emoji = MESSAGE_DELETE_REACTION ∧
       e.replied_to_author_id = e.reacting_user_id) := by
  unfold on_reaction_add
  split_ifs <;>
    simp_all [bne_iff_ne, beq_iff_eq]

/-- Claim C10: with no registration channel configured, the
`?time-deregister` command is a complete no-op: the registry is unchanged
and no reply is sent, whatever the message. -/
theorem c10_deregister_noop_without_channel (db : Registry) (m : Message) :
    deregister_handler db none m = (db, none) := by
  unfold deregister_handler
  simp

set_option maxRecDepth 4000 in
/-- Claim C2 (code bug): handling `?time` for a user whose row already
exists rewrites only the pending token; the row's `update_dt` timestamp
stays at its old value 5 no matter when the command is handled, so the
current timestamp is not stored. -/
theorem c2_timestamp_not_refreshed :
    registration_handler [⟨7, "EU", some 111, 5⟩] (some 3) "https://ex.org/" 2000000 100
        ⟨"?time", 7, 3⟩ =
      ([⟨7, "EU", some 2000000, 5⟩],
       some (registration_dm "https://ex.org/" 2000000),
       some "Check your direct messages for a registration link") := by
  decide

/-- Claim C1 counterexample: a second web POST with the same still-live
token does not fail with "no such registration"; it succeeds again with
"Received", because the token is never cleared after a successful write. -/
theorem c1_second_post_succeeds_cex :
    (receive_timezone
        (receive_timezone [⟨1, "", some 5000000, 0⟩] 5000000 "Europe/Rome" 60).2
        5000000 "Europe/Rome" 120).1 = some "Received" := by
  decide

/-- Claim C1 (amended): a POST matching the stored token strictly before
the TTL succeeds, and since the token is not consumed, a second POST with
the same token strictly before the TTL succeeds again. -/
theorem c1_token_reusable_within_ttl (db : Registry) (link : Int) (tz1 tz2 : String)
    (now1 now2 : Int) (u : User)
    (hfind : db.find? (fun v => v.update_id == some link) = some u)
    (h1 : now1 - u.update_dt ≤ REGISTRATION_TIMEOUT)
    (h2 : now2 - u.update_dt ≤ REGISTRATION_TIMEOUT) :
    (receive_timezone db link tz1 now1).1 = some "Received" ∧
      (receive_timezone (receive_timezone db link tz1 now1).2 link tz2 now2).1 =
        some "Received" := by
  have hnot1 : ¬ now1 - u.update_dt > REGISTRATION_TIMEOUT := not_lt.mpr h1
  have hnot2 : ¬ now2 - u.update_dt > REGISTRATION_TIMEOUT := not_lt.mpr h2
  simp only [receive_timezone, hfind, if_neg hnot1]
  constructor
  · trivial
  · rw [find?_token_map_update_tz, hfind]
    simp only [Option.map_some']
    rw [(update_tz_fields u u.id tz1).2, if_neg hnot2]

/-- Claim C1 witness: both POSTs with token 5000000 succeed at 60 and 120
seconds after issue. -/
theorem c1_witness :
    (receive_timezone [⟨1, "", some 5000000, 0⟩] 5000000 "Europe/Rome" 60).1 =
        some "Received" ∧
      (receive_timezone
          (receive_timezone [⟨1, "", some 5000000, 0⟩] 5000000 "Europe/Rome" 60).2
          5000000 "UTC" 120).1 = some "Received" :=
  c1_token_reusable_within_ttl [⟨1, "", some 5000000, 0⟩] 5000000 "Europe/Rome" "UTC"
    60 120 ⟨1, "", some 5000000, 0⟩ (by decide) (by decide) (by decide)

/-- Claim C3 counterexample: a POST arriving exactly when the TTL elapses
(token age equal to 30 minutes) is not rejected: the endpoint answers
"Received" and mutates the registry, because the source's check is the
strict `now - update_dt > REGISTRATION_TIMEOUT`. -/
theorem c3_exact_ttl_cex :
    (receive_timezone [⟨1, "", some 5000000, 0⟩] 5000000 "Europe/Rome" 1800).1 =
        some "Received" ∧
      (receive_timezone [⟨1, "", some 5000000, 0⟩] 5000000 "Europe/Rome" 1800).2 ≠
        [⟨1, "", some 5000000, 0⟩] := by
  decide

/-- Claim C3 (amended): a POST whose matching token is strictly older
than the TTL answers "Link timed out" and leaves the registry exactly as
it was. -/
theorem c3_strictly_after_ttl_timeout (db : Registry) (link : Int) (tzArg : String)
    (now : Int) (u : User)
    (hfind : db.find? (fun v => v.update_id == some link) = some u)
    (h : now - u.update_dt > REGISTRATION_TIMEOUT) :
    receive_timezone db link tzArg now = (some "Link timed out", db) := by
  simp only [receive_timezone, hfind]
  rw [if_pos h]

/-- Claim C3 witness: at age 1801 seconds the POST times out and the
registry is untouched. -/
theorem c3_timeout_witness :
    receive_timezone [⟨1, "", some 5000000, 0⟩] 5000000 "Europe/Rome" 1801 =
      (some "Link timed out", [⟨1, "", some 5000000, 0⟩]) :=
  c3_strictly_after_ttl_timeout [⟨1, "", some 5000000, 0⟩] 5000000 "Europe/Rome" 1801
    ⟨1, "", some 5000000, 0⟩ (by decide) (by decide)

/-- Claim C4 counterexample: with candidates `gd1` (resolvable) and `bd1`
(resolver raises), the claim's behaviour would be to continue with the
resolved `gd1` and reply; the code instead keeps the raw strings and the
conversion step fails for this registered author, producing no reply. -/
theorem c4_raw_batch_cex :
    conversion_handler resolveW locW [⟨1, "Europe/Rome", some 5, 0⟩] none
      ⟨"<gd1> <bd1>", 1, 9⟩ = .error () := by
  rfl

/-- Claim C4 (amended): when the resolver raises partway through the
batch, the aborted comprehension leaves the whole raw candidate list in
place — nothing is resolved and nothing is dropped — and for an author
with a registered timezone the subsequent conversion step fails on those
raw strings. -/
theorem c4_failure_keeps_raw_candidates (resolve : String → Except Unit PyVal)
    (loc : String → Int → Int) (db : Registry) (reg_channel : Option Nat)
    (m : Message) (u : User)
    (herr : mapExcept resolve (extract_candidates m.content) = .error ())
    (hne : extract_candidates m.content ≠ [])
    (hu : db_get db m.author_id = some u)
    (htz : u.tz ≠ "") :
    parseBatch resolve (extract_candidates m.content) =
        (extract_candidates m.content).map PyVal.pystr ∧
      conversion_handler resolve loc db reg_channel m = .error () := by
  have hpb : parseBatch resolve (extract_candidates m.content) =
      (extract_candidates m.content).map PyVal.pystr := by
    unfold parseBatch
    rw [herr]
  refine ⟨hpb, ?_⟩
  simp only [conversion_handler]
  rw [hpb, filter_pyNeq_map_pystr]
  have hlen : ¬ ((extract_candidates m.content).map PyVal.pystr).length = 0 := by
    simp [List.length_eq_zero, hne]
  rw [if_neg hlen]
  simp only [hu]
  have htzb : (u.tz == "") = false := beq_eq_false_iff_ne.mpr htz
  rw [htzb]
  simp only [Bool.false_eq_true, if_false]
  cases hcs : extract_candidates m.content with
  | nil => exact absurd hcs hne
  | cons c cs' =>
    simp [arrowChain]

/-- Claim C4 witness: on `<gd1> <bd1>` with a registered author the
handler keeps both raw candidates and then fails. -/
theorem c4_witness :
    parseBatch resolveW (extract_candidates "<gd1> <bd1>") =
        (extract_candidates "<gd1> <bd1>").map PyVal.pystr ∧
      conversion_handler resolveW locW [⟨1, "Europe/Rome", some 5, 0⟩] (some 3)
        ⟨"<gd1> <bd1>", 1, 9⟩ = .error () :=
  c4_failure_keeps_raw_candidates resolveW locW [⟨1, "Europe/Rome", some 5, 0⟩] (some 3)
    ⟨"<gd1> <bd1>", 1, 9⟩ ⟨1, "Europe/Rome", some 5, 0⟩ (by rfl) (by decide)
    (by decide) (by decide)

/-- Claim C5: issuing a new registration link overwrites the stored
pending token, and a POST using the earlier token then fails with the
no-such-registration (empty) response and no registry mutation, at any
submission time, provided the fresh token differs from the old one and
the author was the only holder of the old token. -/
theorem c5_new_link_invalidates_old (db : Registry) (uid : Nat) (t1 t2 : Int)
    (defaultDt : Int) (tzArg : String) (now : Int)
    (hne : t2 ≠ t1)
    (honly : ∀ v ∈ db, v.update_id = some t1 → v.id = uid) :
    (∃ w, db_get (registration_write db uid t2 defaultDt) uid = some w ∧
        w.update_id = some t2) ∧
      receive_timezone (registration_write db uid t2 defaultDt) t1 tzArg now =
        (none, registration_write db uid t2 defaultDt) := by
  have hnone : (registration_write db uid t2 defaultDt).find?
      (fun v => v.update_id == some t1) = none := by
    rw [List.find?_eq_none]
    intro x hx
    unfold registration_write at hx
    cases hget : db_get db uid with
    | some w =>
      rw [hget] at hx
      rcases List.mem_map.mp hx with ⟨v, hv, rfl⟩
      by_cases hid : (v.id == uid) = true
      · simp [hid, hne]
      · simp only [hid, Bool.false_eq_true, if_false]
        intro hc
        have hvt : v.update_id = some t1 := by simpa using hc
        exact hid (by simp [honly v hv hvt])
    | none =>
      rw [hget] at hx
      rcases List.mem_append.mp hx with hv | hnew
      · intro hc
        have hvt : x.update_id = some t1 := by simpa using hc
        have hxid : x.id = uid := honly x hv hvt
        have hcon : db_get db uid ≠ none := by
          unfold db_get
          intro hn
          have hxx := List.find?_eq_none.mp hn x hv
          simp [hxid] at hxx
        exact hcon hget
      · have hx2 : x = ⟨uid, "", some t2, defaultDt⟩ := by simpa using hnew
        subst hx2
        simp [hne]
  constructor
  · unfold registration_write
    cases hget : db_get db uid with
    | some w =>
      refine ⟨{ w with update_id := some t2 }, ?_, rfl⟩
      unfold db_get
      rw [List.find?_map]
      have hcomp : ((fun u : User => u.id == uid) ∘
          (fun v => if v.id == uid then { v with update_id := some t2 } else v)) =
          fun u : User => u.id == uid := by
        funext v
        by_cases hh : (v.id == uid) = true <;> simp [Function.comp, hh]
      rw [hcomp]
      unfold db_get at hget
      rw [hget]
      have hwid : (w.id == uid) = true := by
        have hw := List.find?_some hget
        simpa using hw
      have hwid2 : w.id = uid := by simpa using hwid
      simp [Option.map_some', hwid2]
    | none =>
      refine ⟨⟨uid, "", some t2, defaultDt⟩, ?_, rfl⟩
      unfold db_get
      rw [List.find?_append]
      unfold db_get at hget
      rw [hget]
      simp
  · simp only [receive_timezone, hnone]

/-- Claim C5 witness: after reissuing token 222 over token 111, a POST
with token 111 gets the empty response and no write. -/
theorem c5_witness :
    (∃ w, db_get (registration_write [⟨1, "", some 111, 0⟩] 1 222 0) 1 = some w ∧
        w.update_id = some 222) ∧
      receive_timezone (registration_write [⟨1, "", some 111, 0⟩] 1 222 0) 111 "UTC" 10 =
        (none, registration_write [⟨1, "", some 111, 0⟩] 1 222 0) :=
  c5_new_link_invalidates_old [⟨1, "", some 111, 0⟩] 1 111 222 0 "UTC" 10 (by decide)
    (by decide)

/-- Claim C6 counterexample: `<a>` is an angle-bracket-delimited
substring with no nested bracket, so by the claim `a` is a candidate; the
code's marker pattern `<[^>][^>]+>` demands at least two inner characters
and produces nothing. -/
theorem c6_single_char_candidate_cex :
    claim_extract_candidates "<a>" = ["a"] ∧ extract_candidates "<a>" = [] := by
  decide

/-- Claim C6 (amended): the extractor is characterised exactly.
Completeness and order: the markup-stripped text decomposes as
`g0 ++ m0 ++ g1 ++ ... ++ m(k-1) ++ gk` where `m0, ..., m(k-1)` are the
returned matches in left-to-right order and no gap `gi` contains a valid
block (an angle-bracket-delimited substring whose inner text has at
least two characters none of them `>`) — hence every valid block
occurring in the text overlaps a returned match, i.e. the scan misses
none and returns them in source order.  Soundness: every returned match
is a valid block.  Pipeline: the candidates are exactly these matches
with delimiters stripped and `http`-prefixed ones discarded, order
preserved, as a pure function of the text; every candidate therefore has
at least two characters, none `>`, and no `http` prefix. -/
theorem c6_extraction_exact (content : String) :
    (∃ gaps : List (List Char),
        gaps.length =
          (rgx_dt_markers_findall (rgx_d_elems_sub content.toList)).length + 1 ∧
        glue gaps (rgx_dt_markers_findall (rgx_d_elems_sub content.toList)) =
          rgx_d_elems_sub content.toList ∧
        ∀ g ∈ gaps, ∀ t, t.IsInfix g → ¬ validBlock t) ∧
      (∀ mres ∈ rgx_dt_markers_findall (rgx_d_elems_sub content.toList),
        validBlock mres) ∧
      (extract_candidates content =
        (((rgx_dt_markers_findall (rgx_d_elems_sub content.toList)).map
              (fun t => (t.drop 1).dropLast)).filter
            (fun t => !(("http".toList).isPrefixOf t))).map (fun t => String.mk t)) ∧
      ∀ s ∈ extract_candidates content,
        2 ≤ s.length ∧ (∀ ch ∈ s.toList, ch ≠ '>') ∧
          (("http".toList).isPrefixOf s.toList) = false := by
  refine ⟨?_, ?_, rfl, ?_⟩
  · rcases findallAux_gaps (rgx_d_elems_sub content.toList) none
        (by intro acc hacc; cases hacc) with ⟨gaps, hl, hg, hnb⟩
    exact ⟨gaps, hl, by simpa [stPrefix] using hg, hnb⟩
  · intro mres hm
    exact findallAux_shape _ none (by intro acc hacc; cases hacc) mres hm
  · intro s hs
    simp only [extract_candidates] at hs
    rcases List.mem_map.mp hs with ⟨t, ht, rfl⟩
    rcases List.mem_filter.mp ht with ⟨ht1, ht2⟩
    rcases List.mem_map.mp ht1 with ⟨mres, hm, heq⟩
    rcases findallAux_shape _ none (by intro acc hacc; cases hacc) mres hm with
      ⟨inner, rfl, hlen, hchars⟩
    have hstrip : ((('<' :: (inner ++ ['>'])).drop 1).dropLast : List Char) = inner := by
      simp [List.dropLast_concat]
    rw [hstrip] at heq
    subst heq
    have hlist : (String.mk inner).toList = inner := rfl
    refine ⟨?_, ?_, ?_⟩
    · rw [String.length_mk]
      exact hlen
    · rw [hlist]
      exact hchars
    · rw [hlist]
      simpa using ht2

/-- Claim C6 witness: on `a <b c> d` the pipeline returns exactly the
candidate `b c`, and the theorem instantiates to its matches. -/
theorem c6_witness :
    extract_candidates "a <b c> d" = ["b c"] ∧
      ∀ mres ∈ rgx_dt_markers_findall (rgx_d_elems_sub "a <b c> d".toList),
        validBlock mres :=
  ⟨by decide, (c6_extraction_exact "a <b c> d").2.1⟩

/-- Claim C7: for a registered author with a non-empty timezone, each
resolved naive datetime is passed through the localisation capability for
that timezone, in source order, and the reply is the timestamp tokens
joined with `", "` wrapped in the fixed preamble and suffix. -/
theorem c7_reply_format_order (resolve : String → Except Unit PyVal)
    (loc : String → Int → Int) (db : Registry) (reg_channel : Option Nat)
    (m : Message) (u : User) (ts : List Int)
    (hu : db_get db m.author_id = some u)
    (htz : u.tz ≠ "")
    (hp : parseBatch resolve (extract_candidates m.content) = ts.map PyVal.dt)
    (hts : ts ≠ []) :
    conversion_handler resolve loc db reg_channel m =
      .ok (db, .reply ("That's " ++
        pyJoin ", " ((ts.map (loc u.tz)).map (fun e => "<t:" ++ toString e ++ ":F>")) ++
        " auto-converted to local time.")) := by
  simp only [conversion_handler]
  rw [hp, filter_pyNeq_map_dt]
  have hlen : ¬ (ts.map PyVal.dt).length = 0 := by
    simp [List.length_eq_zero, hts]
  rw [if_neg hlen]
  simp only [hu]
  have htzb : (u.tz == "") = false := beq_eq_false_iff_ne.mpr htz
  rw [htzb]
  simp only [Bool.false_eq_true, if_false]
  rw [arrowChain_map_dt]
  simp only [buildReply]
  rw [pyJoin_tokens _ (by simp [hts])]

/-- Claim C7 witness: `<t1c> <t2c>` resolves to datetimes 100 and 200 and
the reply carries their localised values in that order. -/
theorem c7_witness :
    conversion_handler resolveW locW [⟨1, "Europe/Rome", some 5, 0⟩] (some 3)
        ⟨"<t1c> <t2c>", 1, 9⟩ =
      .ok ([⟨1, "Europe/Rome", some 5, 0⟩], .reply ("That's " ++
        pyJoin ", " (([100, 200].map (locW "Europe/Rome")).map
          (fun e => "<t:" ++ toString e ++ ":F>")) ++
        " auto-converted to local time.")) :=
  c7_reply_format_order resolveW locW [⟨1, "Europe/Rome", some 5, 0⟩] (some 3)
    ⟨"<t1c> <t2c>", 1, 9⟩ ⟨1, "Europe/Rome", some 5, 0⟩ [100, 200] (by decide)
    (by decide) (by decide) (by decide)

/-- Claim C8: when the message yields at least one understood item but
the author has no registry row or an empty timezone, the handler replies
with the registration guidance — a function of the configured
registration channel only — and the registry is returned unchanged. -/
theorem c8_unregistered_guidance (resolve : String → Except Unit PyVal)
    (loc : String → Int → Int) (db : Registry) (reg_channel : Option Nat)
    (m : Message)
    (hitems : (parseBatch resolve (extract_candidates m.content)).filter
        pyNeqEmptyList ≠ [])
    (hu : db_get db m.author_id = none ∨
        ∃ u, db_get db m.author_id = some u ∧ u.tz = "") :
    conversion_handler resolve loc db reg_channel m =
      .ok (db, .reply (guidance reg_channel)) := by
  simp only [conversion_handler]
  have hlen : ¬ ((parseBatch resolve (extract_candidates m.content)).filter
      pyNeqEmptyList).length = 0 := by
    simpa [List.length_eq_zero] using hitems
  rw [if_neg hlen]
  rcases hu with hnone | ⟨u, hsome, htz⟩
  · simp only [hnone]
  · simp only [hsome]
    have htzb : (u.tz == "") = true := by simp [htz]
    simp only [htzb, if_true]

/-- Claim C8 witness: an author with no row who writes `<t1c>` gets the
guidance reply for a configured registration channel and no state change. -/
theorem c8_witness :
    conversion_handler resolveW locW [] (some 3) ⟨"<t1c>", 1, 9⟩ =
      .ok ([], .reply (guidance (some 3))) :=
  c8_unregistered_guidance resolveW locW [] (some 3) ⟨"<t1c>", 1, 9⟩ (by decide)
    (Or.inl (by decide))
